import Mathlib

/-!
Shallow embedding of `build_handoff.py`
(_ctx/review_runs/audit-phase2-1772192472/build_handoff.py).

The script reads up to four agent report JSON files, aggregates and
severity-sorts their findings, projects the first 30 into raw patch
candidates, deduplicates them by the (priority, change_summary,
risk_if_not_applied) triple, and emits a handoff document plus a
confirmation template.

Modelling conventions:
* A JSON field that may be absent is an `Option`; a field that may be
  absent or explicitly `null` is an `Option (Option String)`
  (`none` = key absent, `some none` = key present with value `null`,
  `some (some s)` = key present with string value `s`).
* The filesystem is a map from path to `Option (Option AgentData)`:
  `none` = file absent, `some none` = file present but `json.load` fails,
  `some (some d)` = file present and parses to `d`.
* A fatal exception (`json.load` failure) is `Except.error ()`; since the
  script writes both output files only after all processing, an error
  result models "aborts before either output file is written": the
  outputs exist only inside `Except.ok`.
* Python's `list.sort(key=k)` is a stable sort by `k`; it is embedded as
  `List.mergeSort` with the comparator `k a ≤ k b`, which Lean's core
  library proves sorted and stable.
* A Python `dict` preserves insertion order; `dedup_map` is embedded as
  an association list in insertion order, with the in-place update of a
  single (unique) key rendered as a `map` that rewrites the entry whose
  key matches.
-/

namespace BuildHandoff

/-- A finding object as read from an agent report (lines 28-31 of the
script): the script only ever reads the keys `severity`,
`recommendation`, `risk`, and the `agent` tag it adds itself. -/
structure Finding where
  severity : Option (Option String) := none
  recommendation : Option String := none
  risk : Option String := none
  agent : Option String := none
  deriving Repr, DecidableEq, Inhabited

/-- Parsed agent report data: the script reads `data.get("findings", [])`;
`status` and `agentName` model the `status` / `agent` keys that the pending
placeholder carries. -/
structure AgentData where
  status : Option String := none
  agentName : Option String := none
  findings : List Finding := []
  deriving Repr, DecidableEq, Inhabited

/-- The placeholder substituted for a missing report file (line 33):
`{"agent": key, "status": "pending", "findings": []}`. -/
def pendingPlaceholder (key : String) : AgentData :=
  { status := some "pending", agentName := some key, findings := [] }

/-- The fixed agent-key/file-path mapping (lines 14-19); `os.path.join`
is modelled as separator concatenation. -/
def files (runDir : String) : List (String × String) :=
  [("logic", runDir ++ "/agent-logic.json"),
   ("code_quality", runDir ++ "/agent-code-quality.json"),
   ("silent_failure", runDir ++ "/agent-silent-failure.json"),
   ("testing_static", runDir ++ "/agent-testing-static.json")]

/-- Filesystem model: `none` = absent, `some none` = present but
malformed, `some (some d)` = present and parses to `d`. -/
def FS : Type := String → Option (Option AgentData)

/-- One iteration of the aggregation loop (lines 23-33): a present file
either parses (its findings are tagged with the agent key and appended)
or raises; an absent file yields the pending placeholder. -/
def loadStep (fs : FS) (acc : List (String × AgentData) × List Finding)
    (kf : String × String) : Except Unit (List (String × AgentData) × List Finding) :=
  match fs kf.2 with
  | none => .ok (acc.1 ++ [(kf.1, pendingPlaceholder kf.1)], acc.2)
  | some none => .error ()
  | some (some d) =>
      .ok (acc.1 ++ [(kf.1, d)],
           acc.2 ++ d.findings.map (fun f => { f with agent := some kf.1 }))

/-- The aggregation loop over the four expected files, producing the
`agents` mapping and the flat `all_findings` list (lines 21-33). -/
def loadAgents (fs : FS) (runDir : String) :
    Except Unit (List (String × AgentData) × List Finding) :=
  (files runDir).foldlM (loadStep fs) ([], [])

/-- `severity_order = {"Alta": 0, "Media": 1, "Baja": 2}` (line 35),
as a partial map. -/
def severity_order (s : String) : Option Nat :=
  if s = "Alta" then some 0
  else if s = "Media" then some 1
  else if s = "Baja" then some 2
  else none

/-- `severity_order.get(v, 9)` applied to a JSON value `v` that is either
a string or `null` (a `null` key is absent from `severity_order`, so it
gets the default 9). -/
def rankOpt (v : Option String) : Nat :=
  match v with
  | none => 9
  | some s => (severity_order s).getD 9

/-- The sort key of line 36:
`severity_order.get(x.get("severity", "Baja"), 9)`.
An absent `severity` key defaults to the string `"Baja"` before the rank
lookup; a present key (even `null`) is ranked as-is. -/
def findingRank (f : Finding) : Nat :=
  rankOpt (f.severity.getD (some "Baja"))

/-- `all_findings.sort(key=...)` (line 36): Python's stable sort by the
severity rank, embedded as a stable merge sort. -/
def sortFindings (l : List Finding) : List Finding :=
  l.mergeSort (fun a b => decide (findingRank a ≤ findingRank b))

/-- A raw patch candidate record (lines 40-52). -/
structure RawCandidate where
  id : String
  priority : Option String
  source_agent : Option String
  change_summary : Option String
  risk_if_not_applied : Option String
  status : String
  requires_user_confirmation : Bool
  user_decision : String
  user_notes : String
  deriving Repr, DecidableEq, Inhabited

/-- Projection of the `idx`-th (1-based) sorted finding into a raw
candidate (lines 40-52). `f.get("severity", "Baja")` may still be `null`
when the key is present with value `null`. -/
def mkRawCandidate (idx : Nat) (f : Finding) : RawCandidate :=
  { id := "patch-" ++ toString idx,
    priority := f.severity.getD (some "Baja"),
    source_agent := f.agent,
    change_summary := f.recommendation,
    risk_if_not_applied := f.risk,
    status := "proposed",
    requires_user_confirmation := true,
    user_decision := "deferred",
    user_notes := "" }

/-- `for idx, f in enumerate(all_findings[:30], start=1)` (lines 38-52). -/
def rawPatchCandidates (sorted : List Finding) : List RawCandidate :=
  (sorted.take 30).mapIdx (fun i f => mkRawCandidate (i + 1) f)

/-- The dedup key `(priority, change_summary, risk_if_not_applied)`
(line 57). -/
def DedupKey : Type := Option String × Option String × Option String

instance : DecidableEq DedupKey := by
  unfold DedupKey
  infer_instance

/-- The key triple of a raw candidate (line 57). -/
def keyOf (p : RawCandidate) : DedupKey :=
  (p.priority, p.change_summary, p.risk_if_not_applied)

/-- A deduplicated patch candidate record (lines 59-69). -/
structure DedupCandidate where
  id : String
  priority : Option String
  change_summary : Option String
  risk_if_not_applied : Option String
  source_agents : List (Option String)
  status : String
  requires_user_confirmation : Bool
  user_decision : String
  user_notes : String
  deriving Repr, DecidableEq, Inhabited

/-- The key triple of a deduplicated candidate, for stating key
uniqueness of the output list. -/
def keyOfD (c : DedupCandidate) : DedupKey :=
  (c.priority, c.change_summary, c.risk_if_not_applied)

/-- The entry seeded by the first raw candidate seen for a key
(lines 59-69); `n` is `len(dedup_map) + 1` at insertion time. -/
def seedCandidate (n : Nat) (p : RawCandidate) : DedupCandidate :=
  { id := "patch-dedup-" ++ toString n,
    priority := p.priority,
    change_summary := p.change_summary,
    risk_if_not_applied := p.risk_if_not_applied,
    source_agents := [p.source_agent],
    status := "proposed",
    requires_user_confirmation := true,
    user_decision := "deferred",
    user_notes := "" }

/-- Lines 70-72: append the source agent only if not already present. -/
def addAgent (c : DedupCandidate) (a : Option String) : DedupCandidate :=
  if a ∈ c.source_agents then c
  else { c with source_agents := c.source_agents ++ [a] }

/-- One iteration of the dedup loop (lines 56-72) over the
insertion-ordered association list standing for the Python dict: a new
key is appended at the end, an existing (unique) key has its single
entry updated in place. -/
def dedupStep (m : List (DedupKey × DedupCandidate)) (p : RawCandidate) :
    List (DedupKey × DedupCandidate) :=
  if keyOf p ∈ m.map Prod.fst then
    m.map (fun e => if e.1 = keyOf p then (e.1, addAgent e.2 p.source_agent) else e)
  else
    m ++ [(keyOf p, seedCandidate (m.length + 1) p)]

/-- The full dedup loop (lines 55-72). -/
def dedupMap (raw : List RawCandidate) : List (DedupKey × DedupCandidate) :=
  raw.foldl dedupStep []

/-- The sort key of line 76:
`severity_order.get(x.get("priority", "Baja"), 9)`.
Every dedup candidate dict has a `priority` key (set at creation), so
the `"Baja"` default never fires; the stored value may however be
`null`, in which case the rank lookup defaults to 9. -/
def candidateRank (c : DedupCandidate) : Nat :=
  rankOpt c.priority

/-- `list(dedup_map.values())` followed by the stable severity re-sort
(lines 74-77). -/
def deduplicatedPatchCandidates (raw : List RawCandidate) : List DedupCandidate :=
  ((dedupMap raw).map Prod.snd).mergeSort
    (fun a b => decide (candidateRank a ≤ candidateRank b))

/-- One decision slot of the confirmation template (lines 82-88). -/
structure DecisionSlot where
  patch_id : String
  user_decision : String
  user_notes : String
  approved_by : String
  approved_at : String
  deriving Repr, DecidableEq, Inhabited

/-- The confirmation template document (lines 79-91). -/
structure ConfirmationTemplate where
  run_id : String
  decisions : List DecisionSlot
  deriving Repr, DecidableEq, Inhabited

/-- The decision slot generated for one deduplicated candidate
(lines 82-88). -/
def mkDecision (p : DedupCandidate) : DecisionSlot :=
  { patch_id := p.id,
    user_decision := "deferred",
    user_notes := "",
    approved_by := "",
    approved_at := "" }

/-- The fixed `decision_rules` block (lines 104-108). -/
structure DecisionRules where
  allowed_user_decisions : List String
  defaultDecision : String
  requires_user_confirmation : Bool
  deriving Repr, DecidableEq, Inhabited

/-- The handoff document (lines 93-110). Note line 100: the
`agent_outputs` field is assigned `files` — the agent-key → file-path
mapping — not the `agents` mapping of parsed reports and pending
placeholders built at lines 21-33, which the script never uses. -/
structure Handoff where
  schema_version : String
  handoff_version : String
  generated_at : String
  run_id : String
  session_name : String
  plan_path : String
  agent_outputs : List (String × String)
  findings : List Finding
  raw_patch_candidates : List RawCandidate
  deduplicated_patch_candidates : List DedupCandidate
  decision_rules : DecisionRules
  next_step_for_parent_agent : String
  deriving Repr, DecidableEq, Inhabited

/-- The two documents the script writes (lines 112-118). -/
structure RunOutputs where
  handoff : Handoff
  confirmation : ConfirmationTemplate
  deriving Repr, DecidableEq, Inhabited

/-- The straight-line assembly of both output documents from the
aggregated finding list (lines 36-110): sorting, candidate projection,
deduplication, and the two document records. `now` stands for
`datetime.now().isoformat()` (an external collaborator). -/
def assemble (runDir runId sessionName planPath now : String)
    (allFindings : List Finding) : RunOutputs :=
  let sorted := sortFindings allFindings
  let raw := rawPatchCandidates sorted
  let dedup := deduplicatedPatchCandidates raw
  {
    handoff := {
      schema_version := "2.0",
      handoff_version := "2.0",
      generated_at := now,
      run_id := runId,
      session_name := sessionName,
      plan_path := planPath,
      agent_outputs := files runDir,
      findings := sorted,
      raw_patch_candidates := raw,
      deduplicated_patch_candidates := dedup,
      decision_rules := {
        allowed_user_decisions := ["approved", "rejected", "deferred"],
        defaultDecision := "deferred",
        requires_user_confirmation := true },
      next_step_for_parent_agent :=
        "Presentar deduplicated_patch_candidates al usuario, capturar user_decision por patch y aplicar solo approved." },
    confirmation := {
      run_id := runId,
      decisions := dedup.map mkDecision } }

/-- The whole run: aggregation, then assembly of both output documents.
An `Except.error` models the unhandled `json.load` exception, which
occurs before either output file is written: the documents exist only
inside `Except.ok`. The `agents` mapping returned by `loadAgents` is
bound but (faithfully to the script, lines 21-33 versus line 100) not
used in either output document. -/
def buildHandoff (fs : FS) (runDir runId sessionName planPath now : String) :
    Except Unit RunOutputs := do
  let (_agents, allFindings) ← loadAgents fs runDir
  .ok (assemble runDir runId sessionName planPath now allFindings)

/-- The list of distinct values of `l` in order of first occurrence:
the reference formulation against which the `source_agents` merge of
lines 70-72 is verified. -/
def firstSeen (l : List (Option String)) : List (Option String) :=
  l.foldl (fun acc a => if a ∈ acc then acc else acc ++ [a]) []

/-! ### Concrete instances used by counterexamples and witnesses -/

/-- A finding with severity `"Alta"`. -/
def findingAlta : Finding :=
  { severity := some (some "Alta"), recommendation := some "usar transacciones",
    risk := some "corrupcion de datos" }

/-- A finding with explicit severity `"Baja"`. -/
def findingBaja : Finding :=
  { severity := some (some "Baja"), recommendation := some "renombrar variable",
    risk := some "legibilidad" }

/-- A finding whose `severity` key is absent, with the same
recommendation and risk texts as `findingBaja`. -/
def findingNoSeverity : Finding :=
  { recommendation := some "renombrar variable", risk := some "legibilidad" }

/-- A finding whose `severity` key is present with value `null`. -/
def findingNullSeverity : Finding :=
  { severity := some none, recommendation := some "revisar" , risk := some "fallo" }

/-- A finding with the unrecognized severity string `"Desconocida"`. -/
def findingDesconocida : Finding :=
  { severity := some (some "Desconocida"), recommendation := some "revisar logs",
    risk := some "ruido" }

/-- Report data for the `logic` agent: one `"Alta"` finding. -/
def agentDataLogic : AgentData :=
  { status := some "completed", agentName := some "logic", findings := [findingAlta] }

/-- Report data for the `code_quality` agent: one `"Alta"` finding with
the same recommendation and risk texts as the `logic` one. -/
def agentDataQuality : AgentData :=
  { status := some "completed", agentName := some "code_quality", findings := [findingAlta] }

/-- A run directory in which only `agent-logic.json` and
`agent-code-quality.json` exist (both parse), the other two expected
report files are absent. -/
def fsTwo : FS := fun p =>
  if p = "run/agent-logic.json" then some (some agentDataLogic)
  else if p = "run/agent-code-quality.json" then some (some agentDataQuality)
  else none

/-- A run directory in which `agent-logic.json` exists but fails to
parse, and the other report files are absent. -/
def fsMalformed : FS := fun p =>
  if p = "run/agent-logic.json" then some none
  else none

/-- 31 findings with distinct recommendation texts. -/
def bigFindings : List Finding :=
  (List.range 31).map (fun i =>
    { severity := some (some "Media"), recommendation := some (toString i),
      risk := some "k" })

/-- A run directory whose `agent-logic.json` holds 31 findings and
whose other report files are absent. -/
def fsBig : FS := fun p =>
  if p = "run/agent-logic.json" then
    some (some { status := some "completed", agentName := some "logic",
                 findings := bigFindings })
  else none

/-- The 31 findings of `fsBig` as aggregated: tagged with their source
agent key. -/
def bigAll : List Finding :=
  bigFindings.map (fun f => { f with agent := some "logic" })

/-- The successful result of a run, for instantiating theorems whose
hypothesis is `buildHandoff … = .ok out`. -/
def outOf (fs : FS) (runDir runId sessionName planPath now : String) : RunOutputs :=
  match buildHandoff fs runDir runId sessionName planPath now with
  | .ok o => o
  | .error _ => default

end BuildHandoff

/-! ### Properties of the severity sort -/

namespace BuildHandoff

theorem findingLE_trans (a b c : Finding) :
    decide (findingRank a ≤ findingRank b) = true →
    decide (findingRank b ≤ findingRank c) = true →
    decide (findingRank a ≤ findingRank c) = true := by
  simp only [decide_eq_true_eq]
  omega

theorem findingLE_total (a b : Finding) :
    (decide (findingRank a ≤ findingRank b)
      || decide (findingRank b ≤ findingRank a)) = true := by
  simp only [Bool.or_eq_true, decide_eq_true_eq]
  omega

theorem sortFindings_pairwise (xs : List Finding) :
    (sortFindings xs).Pairwise (fun a b => findingRank a ≤ findingRank b) := by
  have h := List.sorted_mergeSort findingLE_trans findingLE_total xs
  exact h.imp (fun hab => of_decide_eq_true hab)

theorem sortFindings_perm (xs : List Finding) : (sortFindings xs).Perm xs :=
  List.mergeSort_perm xs _

theorem length_sortFindings (xs : List Finding) :
    (sortFindings xs).length = xs.length :=
  (sortFindings_perm xs).length_eq

theorem sortFindings_pair_sublist (xs : List Finding) (f1 f2 : Finding)
    (h : [f1, f2].Sublist xs) (hle : findingRank f1 ≤ findingRank f2) :
    [f1, f2].Sublist (sortFindings xs) :=
  List.pair_sublist_mergeSort findingLE_trans findingLE_total
    (decide_eq_true hle) h

theorem candLE_trans (a b c : DedupCandidate) :
    decide (candidateRank a ≤ candidateRank b) = true →
    decide (candidateRank b ≤ candidateRank c) = true →
    decide (candidateRank a ≤ candidateRank c) = true := by
  simp only [decide_eq_true_eq]
  omega

theorem candLE_total (a b : DedupCandidate) :
    (decide (candidateRank a ≤ candidateRank b)
      || decide (candidateRank b ≤ candidateRank a)) = true := by
  simp only [Bool.or_eq_true, decide_eq_true_eq]
  omega

theorem dedupSorted_pairwise (raw : List RawCandidate) :
    (deduplicatedPatchCandidates raw).Pairwise
      (fun a b => candidateRank a ≤ candidateRank b) := by
  have h := List.sorted_mergeSort candLE_trans candLE_total
    ((dedupMap raw).map Prod.snd)
  exact h.imp (fun hab => of_decide_eq_true hab)

theorem dedupSorted_perm (raw : List RawCandidate) :
    (deduplicatedPatchCandidates raw).Perm ((dedupMap raw).map Prod.snd) :=
  List.mergeSort_perm _ _

theorem pair_sublist_of_sorted :
    ∀ (l : List Finding) (f1 f2 : Finding),
    l.Pairwise (fun a b => findingRank a ≤ findingRank b) →
    f1 ∈ l → f2 ∈ l → findingRank f1 < findingRank f2 →
    [f1, f2].Sublist l := by
  intro l
  induction l with
  | nil =>
      intro f1 f2 _ h1 _ _
      simp at h1
  | cons a t ih =>
      intro f1 f2 hp h1 h2 hlt
      rcases List.mem_cons.mp h1 with e1 | m1
      · subst e1
        have h2t : f2 ∈ t := by
          rcases List.mem_cons.mp h2 with e2 | m2
          · exfalso
            rw [e2] at hlt
            omega
          · exact m2
        exact List.Sublist.cons₂ _ (List.singleton_sublist.mpr h2t)
      · have h2t : f2 ∈ t := by
          rcases List.mem_cons.mp h2 with e2 | m2
          · exfalso
            have hle := (List.pairwise_cons.mp hp).1 f1 m1
            rw [e2] at hlt
            omega
          · exact m2
        exact List.Sublist.cons _
          (ih f1 f2 (List.pairwise_cons.mp hp).2 m1 h2t hlt)

/-- C6: the severity sort of the aggregated finding sequence is stable
and order-correct: for any two findings present in the input, a
strictly lower severity rank means the first precedes the second in the
sorted output regardless of their input order; findings appearing in
input order with non-decreasing ranks (in particular, equal ranks) keep
that relative order; the output is pairwise ordered by rank; and it is
a permutation of the input. -/
theorem severity_sort_stable_and_ordered (xs : List Finding) :
    (∀ f1 f2 : Finding, findingRank f1 < findingRank f2 →
        f1 ∈ xs → f2 ∈ xs → [f1, f2].Sublist (sortFindings xs))
    ∧ (∀ f1 f2 : Finding, [f1, f2].Sublist xs →
        findingRank f1 ≤ findingRank f2 → [f1, f2].Sublist (sortFindings xs))
    ∧ (sortFindings xs).Pairwise (fun a b => findingRank a ≤ findingRank b)
    ∧ (sortFindings xs).Perm xs :=
  ⟨fun f1 f2 hlt h1 h2 =>
      pair_sublist_of_sorted (sortFindings xs) f1 f2 (sortFindings_pairwise xs)
        ((sortFindings_perm xs).mem_iff.mpr h1)
        ((sortFindings_perm xs).mem_iff.mpr h2) hlt,
   fun f1 f2 hsub hle => sortFindings_pair_sublist xs f1 f2 hsub hle,
   sortFindings_pairwise xs, sortFindings_perm xs⟩

theorem severity_sort_stable_and_ordered_witness :
    (∀ f1 f2 : Finding, findingRank f1 < findingRank f2 →
        f1 ∈ [findingDesconocida, findingBaja, findingAlta] →
        f2 ∈ [findingDesconocida, findingBaja, findingAlta] →
        [f1, f2].Sublist (sortFindings [findingDesconocida, findingBaja, findingAlta]))
    ∧ (∀ f1 f2 : Finding, [f1, f2].Sublist [findingDesconocida, findingBaja, findingAlta] →
        findingRank f1 ≤ findingRank f2 →
        [f1, f2].Sublist (sortFindings [findingDesconocida, findingBaja, findingAlta]))
    ∧ (sortFindings [findingDesconocida, findingBaja, findingAlta]).Pairwise
        (fun a b => findingRank a ≤ findingRank b)
    ∧ (sortFindings [findingDesconocida, findingBaja, findingAlta]).Perm
        [findingDesconocida, findingBaja, findingAlta] :=
  severity_sort_stable_and_ordered [findingDesconocida, findingBaja, findingAlta]

/-- C1 counterexample: a finding with no `severity` key at all is
ranked 2 (the rank of `"Baja"`), not 9, and accordingly sorts before an
unrecognized-severity finding rather than together with it. -/
theorem absent_severity_rank_counterexample :
    findingRank findingNoSeverity = 2
    ∧ findingRank findingNoSeverity ≠ 9
    ∧ sortFindings [findingDesconocida, findingNoSeverity]
        = [findingNoSeverity, findingDesconocida] := by
  refine ⟨by decide, by decide, ?_⟩
  simp [sortFindings, List.mergeSort, List.splitInTwo, List.splitAt,
        List.splitAt.go, List.merge, findingRank, rankOpt, severity_order,
        findingDesconocida, findingNoSeverity]

/-- C1 (amended): a finding whose `severity` key is present with a
value other than `"Alta"`, `"Media"`, `"Baja"` — including `null` — is
assigned rank 9 and sorts after every finding of known severity in both
the aggregation sort and the final deduplicated sort; a finding with no
`severity` key at all instead defaults to `"Baja"` (rank 2) and is not
covered by the rank-9 rule. -/
theorem unknown_present_severity_ranks_after_known (f : Finding) (v : Option String)
    (hp : f.severity = some v)
    (hunk : ∀ s, v = some s → severity_order s = none) :
    findingRank f = 9
    ∧ (∀ (xs : List Finding) (g : Finding), findingRank g ≤ 2 →
        ¬ [f, g].Sublist (sortFindings xs))
    ∧ (∀ (raw : List RawCandidate) (d c : DedupCandidate),
        d.priority = v → candidateRank c ≤ 2 →
        ¬ [d, c].Sublist (deduplicatedPatchCandidates raw)) := by
  have hrank : rankOpt v = 9 := by
    cases v with
    | none => rfl
    | some s => simp [rankOpt, hunk s rfl]
  have hf9 : findingRank f = 9 := by simp [findingRank, hp, hrank]
  refine ⟨hf9, ?_, ?_⟩
  · intro xs g hg hsub
    have hpw := sortFindings_pairwise xs
    have hfg := List.pairwise_pair.mp (List.Pairwise.sublist hsub hpw)
    omega
  · intro raw d c hd hc hsub
    have hd9 : candidateRank d = 9 := by simp [candidateRank, hd, hrank]
    have hdc := List.pairwise_pair.mp
      (List.Pairwise.sublist hsub (dedupSorted_pairwise raw))
    omega

theorem unknown_present_severity_ranks_after_known_witness :
    findingNullSeverity.severity = some (none : Option String)
    ∧ (findingRank findingNullSeverity = 9
       ∧ (∀ (xs : List Finding) (g : Finding), findingRank g ≤ 2 →
           ¬ [findingNullSeverity, g].Sublist (sortFindings xs))
       ∧ (∀ (raw : List RawCandidate) (d c : DedupCandidate),
           d.priority = (none : Option String) → candidateRank c ≤ 2 →
           ¬ [d, c].Sublist (deduplicatedPatchCandidates raw))) :=
  ⟨rfl, unknown_present_severity_ranks_after_known findingNullSeverity none rfl
    (fun _ h => Option.noConfusion h)⟩

/-- C9: a finding with an entirely absent `severity` key yields a raw
candidate with the literal priority `"Baja"` and sorts at rank 2,
together with explicit `"Baja"` findings; a finding whose `severity`
key is present but unrecognized (including `null`) sorts at rank 9; and
an absent-severity finding is indistinguishable from an explicit
`"Baja"` finding in deduplication keys whenever the remaining key
fields agree. -/
theorem absent_severity_defaults_to_baja (f : Finding) (hf : f.severity = none) :
    findingRank f = 2
    ∧ (∀ idx, (mkRawCandidate idx f).priority = some "Baja")
    ∧ (∀ g : Finding, g.severity = some (some "Baja") → findingRank g = 2)
    ∧ (∀ (g : Finding) (v : Option String), g.severity = some v →
        (∀ s, v = some s → severity_order s = none) → findingRank g = 9)
    ∧ (∀ (idx jdx : Nat) (g : Finding), g.severity = some (some "Baja") →
        g.recommendation = f.recommendation → g.risk = f.risk →
        keyOf (mkRawCandidate idx f) = keyOf (mkRawCandidate jdx g)) := by
  refine ⟨?_, ?_, ?_, ?_, ?_⟩
  · simp [findingRank, hf, rankOpt, severity_order]
  · intro idx
    simp [mkRawCandidate, hf]
  · intro g hg
    simp [findingRank, hg, rankOpt, severity_order]
  · intro g v hg hunk
    cases v with
    | none => simp [findingRank, hg, rankOpt]
    | some s => simp [findingRank, hg, rankOpt, hunk s rfl]
  · intro idx jdx g hg hr hk
    simp [keyOf, mkRawCandidate, hf, hg, hr, hk]

theorem absent_severity_defaults_to_baja_witness :
    findingNoSeverity.severity = none
    ∧ (findingRank findingNoSeverity = 2
       ∧ (∀ idx, (mkRawCandidate idx findingNoSeverity).priority = some "Baja")
       ∧ (∀ g : Finding, g.severity = some (some "Baja") → findingRank g = 2)
       ∧ (∀ (g : Finding) (v : Option String), g.severity = some v →
           (∀ s, v = some s → severity_order s = none) → findingRank g = 9)
       ∧ (∀ (idx jdx : Nat) (g : Finding), g.severity = some (some "Baja") →
           g.recommendation = findingNoSeverity.recommendation →
           g.risk = findingNoSeverity.risk →
           keyOf (mkRawCandidate idx findingNoSeverity) = keyOf (mkRawCandidate jdx g))) :=
  ⟨rfl, absent_severity_defaults_to_baja findingNoSeverity rfl⟩

end BuildHandoff

/-! ### Inversion of the run pipeline and document consistency -/

namespace BuildHandoff

theorem buildHandoff_eq_ok {fs : FS} {rd ri sn pp now : String} {out : RunOutputs}
    (h : buildHandoff fs rd ri sn pp now = .ok out) :
    ∃ res, loadAgents fs rd = .ok res
      ∧ out = assemble rd ri sn pp now res.2 := by
  cases hl : loadAgents fs rd with
  | error e =>
      simp [buildHandoff, hl, Bind.bind, Except.bind] at h
  | ok res =>
      obtain ⟨ags, fnds⟩ := res
      refine ⟨(ags, fnds), rfl, ?_⟩
      simp [buildHandoff, hl, Bind.bind, Except.bind] at h
      exact h.symm

theorem assemble_handoff_findings (rd ri sn pp now : String) (allF : List Finding) :
    (assemble rd ri sn pp now allF).handoff.findings = sortFindings allF := rfl

theorem assemble_handoff_raw (rd ri sn pp now : String) (allF : List Finding) :
    (assemble rd ri sn pp now allF).handoff.raw_patch_candidates
      = rawPatchCandidates (sortFindings allF) := rfl

theorem assemble_handoff_dedup (rd ri sn pp now : String) (allF : List Finding) :
    (assemble rd ri sn pp now allF).handoff.deduplicated_patch_candidates
      = deduplicatedPatchCandidates (rawPatchCandidates (sortFindings allF)) := rfl

theorem assemble_confirmation_decisions (rd ri sn pp now : String) (allF : List Finding) :
    (assemble rd ri sn pp now allF).confirmation.decisions
      = (deduplicatedPatchCandidates (rawPatchCandidates (sortFindings allF))).map
          mkDecision := rfl

theorem loadAgents_error_of_malformed (fs : FS) :
    ∀ (l : List (String × String)) (acc : List (String × AgentData) × List Finding),
    (∃ kf ∈ l, fs kf.2 = some none) →
    l.foldlM (loadStep fs) acc = .error () := by
  intro l
  induction l with
  | nil =>
      intro acc h
      simp at h
  | cons kf rest ih =>
      intro acc h
      rw [List.foldlM_cons]
      cases hk : fs kf.2 with
      | none =>
          have hrest : ∃ kf' ∈ rest, fs kf'.2 = some none := by
            obtain ⟨kf', hm, hfs⟩ := h
            rcases List.mem_cons.mp hm with h1 | h2
            · subst h1
              rw [hk] at hfs
              exact absurd hfs (by simp)
            · exact ⟨kf', h2, hfs⟩
          simp [loadStep, hk, Bind.bind, Except.bind, ih _ hrest]
      | some o =>
          cases o with
          | none => simp [loadStep, hk, Bind.bind, Except.bind]
          | some d =>
              have hrest : ∃ kf' ∈ rest, fs kf'.2 = some none := by
                obtain ⟨kf', hm, hfs⟩ := h
                rcases List.mem_cons.mp hm with h1 | h2
                · subst h1
                  rw [hk] at hfs
                  exact absurd hfs (by simp)
                · exact ⟨kf', h2, hfs⟩
              simp [loadStep, hk, Bind.bind, Except.bind, ih _ hrest]

theorem loadAgents_ok_of_wellformed (fs : FS) :
    ∀ (l : List (String × String)) (acc : List (String × AgentData) × List Finding),
    (∀ kf ∈ l, fs kf.2 ≠ some none) →
    ∃ res, l.foldlM (loadStep fs) acc = .ok res
      ∧ (∀ x ∈ acc.1, x ∈ res.1)
      ∧ (∀ kf ∈ l, fs kf.2 = none → (kf.1, pendingPlaceholder kf.1) ∈ res.1) := by
  intro l
  induction l with
  | nil =>
      intro acc _
      exact ⟨acc, by simp [pure, Except.pure], fun x hx => hx, by simp⟩
  | cons kf rest ih =>
      intro acc h
      rw [List.foldlM_cons]
      cases hk : fs kf.2 with
      | none =>
          obtain ⟨res, hres, hsub, hpend⟩ :=
            ih (acc.1 ++ [(kf.1, pendingPlaceholder kf.1)], acc.2)
              (fun kf' h' => h kf' (List.mem_cons_of_mem _ h'))
          refine ⟨res, ?_, ?_, ?_⟩
          · simp [loadStep, hk, Bind.bind, Except.bind, hres]
          · intro x hx
            exact hsub x (by simp [hx])
          · intro kf' hmem hnone
            rcases List.mem_cons.mp hmem with h1 | h2
            · subst h1
              exact hsub _ (by simp)
            · exact hpend kf' h2 hnone
      | some o =>
          cases o with
          | none => exact absurd hk (h kf (List.mem_cons_self _ _))
          | some d =>
              obtain ⟨res, hres, hsub, hpend⟩ :=
                ih (acc.1 ++ [(kf.1, d)],
                    acc.2 ++ d.findings.map (fun f => { f with agent := some kf.1 }))
                  (fun kf' h' => h kf' (List.mem_cons_of_mem _ h'))
              refine ⟨res, ?_, ?_, ?_⟩
              · simp [loadStep, hk, Bind.bind, Except.bind, hres]
              · intro x hx
                exact hsub x (by simp [hx])
              · intro kf' hmem hnone
                rcases List.mem_cons.mp hmem with h1 | h2
                · subst h1
                  rw [hk] at hnone
                  exact absurd hnone (by simp)
                · exact hpend kf' h2 hnone

/-- C4: the confirmation template has exactly one decision slot per
deduplicated candidate, and the i-th slot's `patch_id` is the id of the
i-th deduplicated candidate in the final sorted order. -/
theorem confirmation_slots_match_deduplicated_candidates
    (fs : FS) (rd ri sn pp now : String) (out : RunOutputs)
    (h : buildHandoff fs rd ri sn pp now = .ok out) :
    out.confirmation.decisions.length
      = out.handoff.deduplicated_patch_candidates.length
    ∧ ∀ (i : Nat) (hi : i < out.confirmation.decisions.length)
        (hj : i < out.handoff.deduplicated_patch_candidates.length),
        (out.confirmation.decisions.get ⟨i, hi⟩).patch_id
          = (out.handoff.deduplicated_patch_candidates.get ⟨i, hj⟩).id := by
  obtain ⟨res, hl, rfl⟩ := buildHandoff_eq_ok h
  rw [assemble_confirmation_decisions, assemble_handoff_dedup]
  constructor
  · exact List.length_map _ _
  · intro i hi hj
    simp [List.get_eq_getElem, mkDecision]

/-- C7: a present report file that fails to parse aborts the run with
no output document produced (and no finding synthesized), while a
missing report file is not an error: the run succeeds and the agent
gets a pending placeholder whose findings list is empty. -/
theorem malformed_fatal_missing_pending (fs : FS) (rd ri sn pp now : String) :
    ((∃ kf ∈ files rd, fs kf.2 = some none) →
        loadAgents fs rd = .error ()
        ∧ buildHandoff fs rd ri sn pp now = .error ())
    ∧ ((∀ kf ∈ files rd, fs kf.2 ≠ some none) →
        ∃ out res, buildHandoff fs rd ri sn pp now = .ok out
          ∧ loadAgents fs rd = .ok res
          ∧ (∀ kf ∈ files rd, fs kf.2 = none →
              (kf.1, pendingPlaceholder kf.1) ∈ res.1
              ∧ (pendingPlaceholder kf.1).findings = [])) := by
  constructor
  · intro hmal
    have he : loadAgents fs rd = .error () :=
      loadAgents_error_of_malformed fs (files rd) ([], []) hmal
    exact ⟨he, by simp [buildHandoff, he, Bind.bind, Except.bind]⟩
  · intro hwf
    obtain ⟨res, hres, hsub, hpend⟩ :=
      loadAgents_ok_of_wellformed fs (files rd) ([], []) hwf
    have hla : loadAgents fs rd = .ok res := hres
    obtain ⟨a, b⟩ := res
    refine ⟨assemble rd ri sn pp now b, (a, b), ?_, hla, ?_⟩
    · simp [buildHandoff, hla, Bind.bind, Except.bind]
    · intro kf hm hn
      exact ⟨hpend kf hm hn, rfl⟩

end BuildHandoff

namespace BuildHandoff

theorem confirmation_slots_match_deduplicated_candidates_witness :
    buildHandoff fsTwo "run" "rid" "sess" "plan" "t"
      = .ok (outOf fsTwo "run" "rid" "sess" "plan" "t")
    ∧ ((outOf fsTwo "run" "rid" "sess" "plan" "t").confirmation.decisions.length
        = (outOf fsTwo "run" "rid" "sess" "plan" "t").handoff.deduplicated_patch_candidates.length
       ∧ ∀ (i : Nat)
          (hi : i < (outOf fsTwo "run" "rid" "sess" "plan" "t").confirmation.decisions.length)
          (hj : i < (outOf fsTwo "run" "rid" "sess" "plan" "t").handoff.deduplicated_patch_candidates.length),
          ((outOf fsTwo "run" "rid" "sess" "plan" "t").confirmation.decisions.get ⟨i, hi⟩).patch_id
            = ((outOf fsTwo "run" "rid" "sess" "plan" "t").handoff.deduplicated_patch_candidates.get ⟨i, hj⟩).id) :=
  ⟨rfl, confirmation_slots_match_deduplicated_candidates fsTwo "run" "rid" "sess" "plan" "t"
    (outOf fsTwo "run" "rid" "sess" "plan" "t") rfl⟩

/-- C5: when more than 30 findings are aggregated, exactly the first 30
of the severity-sorted sequence become raw candidates, numbered
`patch-1` … `patch-30` in that order; deduplication is computed from
that capped raw list alone; and the handoff's `findings` field is the
full, untruncated sorted finding list (a permutation of everything
aggregated). -/
theorem raw_candidates_capped_at_thirty
    (fs : FS) (rd ri sn pp now : String) (out : RunOutputs)
    (h : buildHandoff fs rd ri sn pp now = .ok out)
    (hlong : 30 < out.handoff.findings.length) :
    out.handoff.raw_patch_candidates = rawPatchCandidates out.handoff.findings
    ∧ out.handoff.raw_patch_candidates.length = 30
    ∧ (∀ (i : Nat) (hi : i < out.handoff.raw_patch_candidates.length)
        (hj : i < out.handoff.findings.length),
        out.handoff.raw_patch_candidates.get ⟨i, hi⟩
          = mkRawCandidate (i + 1) (out.handoff.findings.get ⟨i, hj⟩))
    ∧ (∀ (i : Nat) (hi : i < out.handoff.raw_patch_candidates.length),
        (out.handoff.raw_patch_candidates.get ⟨i, hi⟩).id
          = "patch-" ++ toString (i + 1))
    ∧ out.handoff.deduplicated_patch_candidates
        = deduplicatedPatchCandidates out.handoff.raw_patch_candidates
    ∧ (∃ res, loadAgents fs rd = .ok res
        ∧ out.handoff.findings = sortFindings res.2
        ∧ out.handoff.findings.Perm res.2) := by
  obtain ⟨res, hl, rfl⟩ := buildHandoff_eq_ok h
  simp only [assemble_handoff_findings, assemble_handoff_raw,
    assemble_handoff_dedup] at hlong ⊢
  have hget : ∀ (i : Nat)
      (hi : i < (rawPatchCandidates (sortFindings res.2)).length)
      (hj : i < (sortFindings res.2).length),
      (rawPatchCandidates (sortFindings res.2)).get ⟨i, hi⟩
        = mkRawCandidate (i + 1) ((sortFindings res.2).get ⟨i, hj⟩) := by
    intro i hi hj
    have hi30 : i < ((sortFindings res.2).take 30).length := by
      simpa [rawPatchCandidates] using hi
    simp only [rawPatchCandidates]
    rw [List.get_mapIdx _ _ i hi30]
    congr 1
    simp [List.get_eq_getElem]
  refine ⟨by trivial, ?_, hget, ?_, by trivial, ⟨res, hl, by trivial, sortFindings_perm res.2⟩⟩
  · simp [rawPatchCandidates, List.length_take]
    omega
  · intro i hi
    have hj : i < (sortFindings res.2).length := by
      simp [rawPatchCandidates, List.length_take] at hi
      omega
    rw [hget i hi hj]
    rfl

theorem raw_candidates_capped_at_thirty_witness :
    (buildHandoff fsBig "run" "rid" "sess" "plan" "t"
        = .ok (outOf fsBig "run" "rid" "sess" "plan" "t")
      ∧ 30 < (outOf fsBig "run" "rid" "sess" "plan" "t").handoff.findings.length)
    ∧ ((outOf fsBig "run" "rid" "sess" "plan" "t").handoff.raw_patch_candidates
        = rawPatchCandidates (outOf fsBig "run" "rid" "sess" "plan" "t").handoff.findings
       ∧ (outOf fsBig "run" "rid" "sess" "plan" "t").handoff.raw_patch_candidates.length = 30
       ∧ (∀ (i : Nat)
            (hi : i < (outOf fsBig "run" "rid" "sess" "plan" "t").handoff.raw_patch_candidates.length)
            (hj : i < (outOf fsBig "run" "rid" "sess" "plan" "t").handoff.findings.length),
            (outOf fsBig "run" "rid" "sess" "plan" "t").handoff.raw_patch_candidates.get ⟨i, hi⟩
              = mkRawCandidate (i + 1)
                  ((outOf fsBig "run" "rid" "sess" "plan" "t").handoff.findings.get ⟨i, hj⟩))
       ∧ (∀ (i : Nat)
            (hi : i < (outOf fsBig "run" "rid" "sess" "plan" "t").handoff.raw_patch_candidates.length),
            ((outOf fsBig "run" "rid" "sess" "plan" "t").handoff.raw_patch_candidates.get ⟨i, hi⟩).id
              = "patch-" ++ toString (i + 1))
       ∧ (outOf fsBig "run" "rid" "sess" "plan" "t").handoff.deduplicated_patch_candidates
          = deduplicatedPatchCandidates
              (outOf fsBig "run" "rid" "sess" "plan" "t").handoff.raw_patch_candidates
       ∧ (∃ res, loadAgents fsBig "run" = .ok res
           ∧ (outOf fsBig "run" "rid" "sess" "plan" "t").handoff.findings = sortFindings res.2
           ∧ ((outOf fsBig "run" "rid" "sess" "plan" "t").handoff.findings).Perm res.2)) :=
  have hlen : 30 < (outOf fsBig "run" "rid" "sess" "plan" "t").handoff.findings.length := by
    have h1 : (outOf fsBig "run" "rid" "sess" "plan" "t").handoff.findings
        = sortFindings bigAll := rfl
    rw [h1, length_sortFindings]
    simp [bigAll, bigFindings]
  ⟨⟨rfl, hlen⟩,
   raw_candidates_capped_at_thirty fsBig "run" "rid" "sess" "plan" "t"
     (outOf fsBig "run" "rid" "sess" "plan" "t") rfl hlen⟩

theorem malformed_fatal_missing_pending_witness :
    loadAgents fsMalformed "run" = .error ()
    ∧ buildHandoff fsMalformed "run" "rid" "sess" "plan" "t" = .error () :=
  (malformed_fatal_missing_pending fsMalformed "run" "rid" "sess" "plan" "t").1
    ⟨("logic", "run" ++ "/agent-logic.json"), by simp [files], by decide⟩

/-- C2: at a run where only 2 of the 4 expected report files exist, the
emitted handoff's `agent_outputs` field is the agent-key → file-path
mapping (plain path strings, carrying no `status: "pending"` record),
even though the in-memory `agents` mapping computed by the aggregation
loop does hold pending placeholders for the two missing agents (and
those contribute zero findings). The pending placeholders are never
emitted: the script builds them and then writes `files` instead. -/
theorem agent_outputs_divergence :
    (buildHandoff fsTwo "run" "rid" "sess" "plan" "t").map
        (fun o => o.handoff.agent_outputs) = .ok (files "run")
    ∧ files "run" =
        [("logic", "run/agent-logic.json"),
         ("code_quality", "run/agent-code-quality.json"),
         ("silent_failure", "run/agent-silent-failure.json"),
         ("testing_static", "run/agent-testing-static.json")]
    ∧ (loadAgents fsTwo "run").map (fun r => r.1) = .ok
        [("logic", agentDataLogic),
         ("code_quality", agentDataQuality),
         ("silent_failure", pendingPlaceholder "silent_failure"),
         ("testing_static", pendingPlaceholder "testing_static")]
    ∧ (loadAgents fsTwo "run").map (fun r => r.2) = .ok
        [{ findingAlta with agent := some "logic" },
         { findingAlta with agent := some "code_quality" }] :=
  ⟨rfl, rfl, rfl, rfl⟩

/-- C8: deduplication is deterministic — two runs of the deduplicator
on the same raw candidate list produce identical output lists, with the
same ids, the same final order, and the same `source_agents` lists. In
this embedding the deduplicator is a pure function (Python dict
iteration is insertion-ordered and deterministic), so equal inputs give
equal outputs. -/
theorem dedup_deterministic (raw1 raw2 : List RawCandidate) (h : raw1 = raw2) :
    deduplicatedPatchCandidates raw1 = deduplicatedPatchCandidates raw2
    ∧ (deduplicatedPatchCandidates raw1).map (fun c => c.id)
        = (deduplicatedPatchCandidates raw2).map (fun c => c.id)
    ∧ (deduplicatedPatchCandidates raw1).map (fun c => c.source_agents)
        = (deduplicatedPatchCandidates raw2).map (fun c => c.source_agents) := by
  subst h
  exact ⟨rfl, rfl, rfl⟩

theorem dedup_deterministic_witness :
    [mkRawCandidate 1 findingAlta] = [mkRawCandidate 1 findingAlta]
    ∧ (deduplicatedPatchCandidates [mkRawCandidate 1 findingAlta]
        = deduplicatedPatchCandidates [mkRawCandidate 1 findingAlta]
       ∧ (deduplicatedPatchCandidates [mkRawCandidate 1 findingAlta]).map (fun c => c.id)
          = (deduplicatedPatchCandidates [mkRawCandidate 1 findingAlta]).map (fun c => c.id)
       ∧ (deduplicatedPatchCandidates [mkRawCandidate 1 findingAlta]).map (fun c => c.source_agents)
          = (deduplicatedPatchCandidates [mkRawCandidate 1 findingAlta]).map (fun c => c.source_agents)) :=
  ⟨rfl, dedup_deterministic [mkRawCandidate 1 findingAlta] [mkRawCandidate 1 findingAlta] rfl⟩

end BuildHandoff

/-! ### Properties of the deduplication loop -/

namespace BuildHandoff

theorem keyOfD_addAgent (c : DedupCandidate) (a : Option String) :
    keyOfD (addAgent c a) = keyOfD c := by
  unfold addAgent
  split <;> rfl

theorem source_agents_addAgent (c : DedupCandidate) (a : Option String) :
    (addAgent c a).source_agents
      = if a ∈ c.source_agents then c.source_agents
        else c.source_agents ++ [a] := by
  unfold addAgent
  by_cases h : a ∈ c.source_agents
  · simp [h]
  · simp [h]

theorem source_agents_addAgent_ne_nil (c : DedupCandidate) (a : Option String) :
    (addAgent c a).source_agents ≠ [] := by
  rw [source_agents_addAgent]
  by_cases h : a ∈ c.source_agents
  · rw [if_pos h]
    intro hnil
    rw [hnil] at h
    simp at h
  · rw [if_neg h]
    simp

theorem keyOfD_seedCandidate (n : Nat) (p : RawCandidate) :
    keyOfD (seedCandidate n p) = keyOf p := rfl

theorem firstSeen_append_singleton (l : List (Option String)) (a : Option String) :
    firstSeen (l ++ [a])
      = if a ∈ firstSeen l then firstSeen l else firstSeen l ++ [a] := by
  simp [firstSeen, List.foldl_append]

theorem firstSeen_aux_nodup :
    ∀ (l acc : List (Option String)), acc.Nodup →
    (l.foldl (fun acc a => if a ∈ acc then acc else acc ++ [a]) acc).Nodup := by
  intro l
  induction l with
  | nil => exact fun acc h => h
  | cons a rest ih =>
      intro acc h
      simp only [List.foldl_cons]
      by_cases ha : a ∈ acc
      · rw [if_pos ha]
        exact ih acc h
      · rw [if_neg ha]
        refine ih _ ?_
        simp [List.nodup_append, h]
        exact ha

theorem firstSeen_nodup (l : List (Option String)) : (firstSeen l).Nodup :=
  firstSeen_aux_nodup l [] (by simp)

theorem mem_firstSeen_aux :
    ∀ (l acc : List (Option String)) (x : Option String),
    (x ∈ l.foldl (fun acc a => if a ∈ acc then acc else acc ++ [a]) acc
      ↔ x ∈ acc ∨ x ∈ l) := by
  intro l
  induction l with
  | nil => simp
  | cons a rest ih =>
      intro acc x
      simp only [List.foldl_cons]
      by_cases ha : a ∈ acc
      · rw [if_pos ha]
        rw [ih acc x]
        constructor
        · intro h
          rcases h with h | h
          · exact Or.inl h
          · exact Or.inr (List.mem_cons_of_mem _ h)
        · intro h
          rcases h with h | h
          · exact Or.inl h
          · rcases List.mem_cons.mp h with h1 | h2
            · exact Or.inl (h1 ▸ ha)
            · exact Or.inr h2
      · rw [if_neg ha]
        rw [ih _ x]
        simp [List.mem_append, List.mem_cons]
        tauto

theorem mem_firstSeen (l : List (Option String)) (x : Option String) :
    x ∈ firstSeen l ↔ x ∈ l := by
  have h := mem_firstSeen_aux l [] x
  simpa [firstSeen] using h

theorem dedupStep_length (m : List (DedupKey × DedupCandidate)) (p : RawCandidate) :
    (dedupStep m p).length = m.length
    ∨ (dedupStep m p).length = m.length + 1 := by
  unfold dedupStep
  by_cases h : keyOf p ∈ m.map Prod.fst
  · left
    rw [if_pos h]
    exact List.length_map _ _
  · right
    rw [if_neg h]
    simp

theorem foldl_dedupStep_length_le :
    ∀ (l : List RawCandidate) (m : List (DedupKey × DedupCandidate)),
    (l.foldl dedupStep m).length ≤ m.length + l.length := by
  intro l
  induction l with
  | nil => simp
  | cons p rest ih =>
      intro m
      simp only [List.foldl_cons, List.length_cons]
      have h1 := ih (dedupStep m p)
      have h2 := dedupStep_length m p
      rcases h2 with h2 | h2 <;> omega

theorem foldl_dedupStep_length_ge :
    ∀ (l : List RawCandidate) (m : List (DedupKey × DedupCandidate)),
    m.length ≤ (l.foldl dedupStep m).length := by
  intro l
  induction l with
  | nil => simp
  | cons p rest ih =>
      intro m
      simp only [List.foldl_cons]
      have h1 := ih (dedupStep m p)
      have h2 := dedupStep_length m p
      rcases h2 with h2 | h2 <;> omega

theorem dedupMap_length_le (raw : List RawCandidate) :
    (dedupMap raw).length ≤ raw.length := by
  have h := foldl_dedupStep_length_le raw []
  simpa [dedupMap] using h

theorem dedupMap_length_pos (raw : List RawCandidate) (h : raw ≠ []) :
    1 ≤ (dedupMap raw).length := by
  cases raw with
  | nil => exact absurd rfl h
  | cons p rest =>
      have h1 := foldl_dedupStep_length_ge rest (dedupStep [] p)
      have h2 : (dedupStep [] p).length = 1 := by simp [dedupStep]
      simp only [dedupMap, List.foldl_cons]
      omega

end BuildHandoff

namespace BuildHandoff

theorem dedupStep_invariant (pre : List RawCandidate) (p : RawCandidate)
    (m : List (DedupKey × DedupCandidate))
    (hkeys : ∀ k, k ∈ m.map Prod.fst ↔ ∃ q ∈ pre, keyOf q = k)
    (hnd : (m.map Prod.fst).Nodup)
    (hcons : ∀ e ∈ m, keyOfD e.2 = e.1)
    (hsrc : ∀ e ∈ m, e.2.source_agents
        = firstSeen ((pre.filter (fun q => decide (keyOf q = e.1))).map
            (fun q => q.source_agent)))
    (hne : ∀ e ∈ m, e.2.source_agents ≠ []) :
    (∀ k, k ∈ (dedupStep m p).map Prod.fst ↔ ∃ q ∈ pre ++ [p], keyOf q = k)
    ∧ ((dedupStep m p).map Prod.fst).Nodup
    ∧ (∀ e ∈ dedupStep m p, keyOfD e.2 = e.1)
    ∧ (∀ e ∈ dedupStep m p, e.2.source_agents
        = firstSeen (((pre ++ [p]).filter (fun q => decide (keyOf q = e.1))).map
            (fun q => q.source_agent)))
    ∧ (∀ e ∈ dedupStep m p, e.2.source_agents ≠ []) := by
  by_cases hc : keyOf p ∈ m.map Prod.fst
  · have hstep : dedupStep m p
        = m.map (fun e =>
            if e.1 = keyOf p then (e.1, addAgent e.2 p.source_agent) else e) := by
      simp [dedupStep, hc]
    have hfst : (dedupStep m p).map Prod.fst = m.map Prod.fst := by
      rw [hstep, List.map_map]
      apply List.map_congr_left
      intro e he
      by_cases h : e.1 = keyOf p <;> simp [Function.comp, h]
    refine ⟨?_, ?_, ?_, ?_, ?_⟩
    · intro k
      rw [hfst, hkeys k]
      constructor
      · rintro ⟨q, hq, hqe⟩
        exact ⟨q, List.mem_append_left _ hq, hqe⟩
      · rintro ⟨q, hq, hqe⟩
        rcases List.mem_append.mp hq with h1 | h2
        · exact ⟨q, h1, hqe⟩
        · have hq' : q = p := by simpa using h2
          have hkp : keyOf p = k := hq' ▸ hqe
          obtain ⟨q', hq2, hq2e⟩ := (hkeys (keyOf p)).mp hc
          exact ⟨q', hq2, hq2e.trans hkp⟩
    · rw [hfst]
      exact hnd
    · intro e' he'
      rw [hstep] at he'
      obtain ⟨e, he, rfl⟩ := List.mem_map.mp he'
      by_cases h : e.1 = keyOf p
      · simp only [if_pos h]
        rw [keyOfD_addAgent]
        exact hcons e he
      · simp only [if_neg h]
        exact hcons e he
    · intro e' he'
      rw [hstep] at he'
      obtain ⟨e, he, rfl⟩ := List.mem_map.mp he'
      by_cases h : e.1 = keyOf p
      · simp only [if_pos h]
        have hkp : keyOf p = e.1 := h.symm
        rw [List.filter_append]
        have hfp : List.filter (fun q => decide (keyOf q = e.1)) [p] = [p] := by
          simp [List.filter_cons, hkp]
        rw [hfp, List.map_append]
        simp only [List.map_cons, List.map_nil]
        rw [firstSeen_append_singleton]
        rw [source_agents_addAgent]
        rw [hsrc e he]
      · simp only [if_neg h]
        have hkp : ¬ (keyOf p = e.1) := fun hh => h hh.symm
        rw [List.filter_append]
        have hfp : List.filter (fun q => decide (keyOf q = e.1)) [p] = [] := by
          simp [List.filter_cons, hkp]
        rw [hfp]
        simp only [List.append_nil]
        exact hsrc e he
    · intro e' he'
      rw [hstep] at he'
      obtain ⟨e, he, rfl⟩ := List.mem_map.mp he'
      by_cases h : e.1 = keyOf p
      · simp only [if_pos h]
        exact source_agents_addAgent_ne_nil _ _
      · simp only [if_neg h]
        exact hne e he
  · have hstep : dedupStep m p
        = m ++ [(keyOf p, seedCandidate (m.length + 1) p)] := by
      simp [dedupStep, hc]
    have hnotpre : ∀ q ∈ pre, ¬ (keyOf q = keyOf p) := by
      intro q hq hqe
      exact hc ((hkeys (keyOf p)).mpr ⟨q, hq, hqe⟩)
    refine ⟨?_, ?_, ?_, ?_, ?_⟩
    · intro k
      rw [hstep]
      simp only [List.map_append, List.map_cons, List.map_nil, List.mem_append,
        List.mem_singleton]
      constructor
      · intro hk
        rcases hk with hk | hk
        · obtain ⟨q, hq, hqe⟩ := (hkeys k).mp hk
          exact ⟨q, Or.inl hq, hqe⟩
        · exact ⟨p, Or.inr rfl, hk.symm⟩
      · rintro ⟨q, hq, hqe⟩
        rcases hq with h1 | h2
        · exact Or.inl ((hkeys k).mpr ⟨q, h1, hqe⟩)
        · exact Or.inr (h2 ▸ hqe).symm
    · rw [hstep]
      simp only [List.map_append, List.map_cons, List.map_nil]
      rw [List.nodup_append]
      refine ⟨hnd, by simp, ?_⟩
      intro k hk
      simp only [List.mem_singleton]
      intro hke
      exact hc (hke ▸ hk)
    · intro e' he'
      rw [hstep] at he'
      rcases List.mem_append.mp he' with h1 | h2
      · exact hcons e' h1
      · have he'' : e' = (keyOf p, seedCandidate (m.length + 1) p) := by simpa using h2
        subst he''
        exact keyOfD_seedCandidate _ _
    · intro e' he'
      rw [hstep] at he'
      rcases List.mem_append.mp he' with h1 | h2
      · have hmem : e'.1 ∈ m.map Prod.fst := List.mem_map_of_mem Prod.fst h1
        have hke : ¬ (keyOf p = e'.1) := fun hh => hc (hh ▸ hmem)
        rw [List.filter_append]
        have hfp : List.filter (fun q => decide (keyOf q = e'.1)) [p] = [] := by
          simp [List.filter_cons, hke]
        rw [hfp]
        simp only [List.append_nil]
        exact hsrc e' h1
      · have he'' : e' = (keyOf p, seedCandidate (m.length + 1) p) := by simpa using h2
        subst he''
        rw [List.filter_append]
        have hpre0 : List.filter
            (fun q => decide (keyOf q = (keyOf p, seedCandidate (m.length + 1) p).1)) pre
            = [] := by
          rw [List.filter_eq_nil_iff]
          intro q hq
          simpa using hnotpre q hq
        have hfp : List.filter
            (fun q => decide (keyOf q = (keyOf p, seedCandidate (m.length + 1) p).1)) [p]
            = [p] := by
          simp [List.filter_cons]
        rw [hpre0, hfp]
        simp [seedCandidate, firstSeen]
    · intro e' he'
      rw [hstep] at he'
      rcases List.mem_append.mp he' with h1 | h2
      · exact hne e' h1
      · have he'' : e' = (keyOf p, seedCandidate (m.length + 1) p) := by simpa using h2
        subst he''
        simp [seedCandidate]

end BuildHandoff

namespace BuildHandoff

theorem dedup_loop_invariant :
    ∀ (rest pre : List RawCandidate) (m : List (DedupKey × DedupCandidate)),
    (∀ k, k ∈ m.map Prod.fst ↔ ∃ q ∈ pre, keyOf q = k) →
    (m.map Prod.fst).Nodup →
    (∀ e ∈ m, keyOfD e.2 = e.1) →
    (∀ e ∈ m, e.2.source_agents
        = firstSeen ((pre.filter (fun q => decide (keyOf q = e.1))).map
            (fun q => q.source_agent))) →
    (∀ e ∈ m, e.2.source_agents ≠ []) →
    ((∀ k, k ∈ (rest.foldl dedupStep m).map Prod.fst
        ↔ ∃ q ∈ pre ++ rest, keyOf q = k)
      ∧ ((rest.foldl dedupStep m).map Prod.fst).Nodup
      ∧ (∀ e ∈ rest.foldl dedupStep m, keyOfD e.2 = e.1)
      ∧ (∀ e ∈ rest.foldl dedupStep m, e.2.source_agents
          = firstSeen (((pre ++ rest).filter (fun q => decide (keyOf q = e.1))).map
              (fun q => q.source_agent)))
      ∧ (∀ e ∈ rest.foldl dedupStep m, e.2.source_agents ≠ [])) := by
  intro rest
  induction rest with
  | nil =>
      intro pre m hkeys hnd hcons hsrc hne
      simp only [List.foldl_nil, List.append_nil]
      exact ⟨hkeys, hnd, hcons, hsrc, hne⟩
  | cons p rest ih =>
      intro pre m hkeys hnd hcons hsrc hne
      obtain ⟨k1, k2, k3, k4, k5⟩ :=
        dedupStep_invariant pre p m hkeys hnd hcons hsrc hne
      have hmain := ih (pre ++ [p]) (dedupStep m p) k1 k2 k3 k4 k5
      simpa [List.foldl_cons, List.append_assoc] using hmain

theorem dedupMap_props (raw : List RawCandidate) :
    ((dedupMap raw).map Prod.fst).Nodup
    ∧ (∀ e ∈ dedupMap raw, keyOfD e.2 = e.1)
    ∧ (∀ e ∈ dedupMap raw, e.2.source_agents
        = firstSeen ((raw.filter (fun q => decide (keyOf q = e.1))).map
            (fun q => q.source_agent)))
    ∧ (∀ e ∈ dedupMap raw, e.2.source_agents ≠ []) := by
  have h := dedup_loop_invariant raw [] []
    (by simp) (by simp) (by simp) (by simp) (by simp)
  obtain ⟨h1, h2, h3, h4, h5⟩ := h
  refine ⟨h2, h3, ?_, h5⟩
  intro e he
  have := h4 e he
  simpa using this

/-- C3: no two entries of the deduplicated candidate list share a
(priority, change_summary, risk_if_not_applied) key, and each
deduplicated candidate's `source_agents` is exactly the distinct
source-agent values of the raw candidates mapping to its key, in order
of first occurrence and without duplicates (`firstSeen` keeps the first
occurrence of each value; see `firstSeen_nodup` and `mem_firstSeen`). -/
theorem dedup_keys_unique_and_source_agents_first_seen (raw : List RawCandidate) :
    (deduplicatedPatchCandidates raw).Pairwise (fun c d => keyOfD c ≠ keyOfD d)
    ∧ (∀ c ∈ deduplicatedPatchCandidates raw,
        c.source_agents
          = firstSeen ((raw.filter (fun q => decide (keyOf q = keyOfD c))).map
              (fun q => q.source_agent))
          ∧ c.source_agents.Nodup
          ∧ (∀ a, a ∈ c.source_agents
              ↔ a ∈ (raw.filter (fun q => decide (keyOf q = keyOfD c))).map
                  (fun q => q.source_agent))) := by
  obtain ⟨hnd, hcons, hsrc, _⟩ := dedupMap_props raw
  constructor
  · have h2 : (dedupMap raw).Pairwise (fun e1 e2 => e1.1 ≠ e2.1) :=
      (List.pairwise_map).mp hnd
    have h3 : (dedupMap raw).Pairwise
        (fun e1 e2 => keyOfD e1.2 ≠ keyOfD e2.2) := by
      apply List.Pairwise.imp_of_mem ?_ h2
      intro e1 e2 h1m h2m hne12
      rw [hcons e1 h1m, hcons e2 h2m]
      exact hne12
    have hpw : ((dedupMap raw).map Prod.snd).Pairwise
        (fun c d => keyOfD c ≠ keyOfD d) := (List.pairwise_map).mpr h3
    have hsym : ∀ {x y : DedupCandidate},
        keyOfD x ≠ keyOfD y → keyOfD y ≠ keyOfD x :=
      fun h hh => h hh.symm
    exact (List.Perm.pairwise_iff hsym (dedupSorted_perm raw)).mpr hpw
  · intro c hc
    have hc' : c ∈ (dedupMap raw).map Prod.snd :=
      (List.Perm.mem_iff (dedupSorted_perm raw)).mp hc
    obtain ⟨e, he, rfl⟩ := List.mem_map.mp hc'
    have hkey := hcons e he
    rw [hkey]
    refine ⟨hsrc e he, ?_, ?_⟩
    · rw [hsrc e he]
      exact firstSeen_nodup _
    · intro a
      rw [hsrc e he]
      exact mem_firstSeen _ a

/-- C10: every deduplicated candidate carries at least one source
agent, and a non-empty raw candidate list yields between 1 and
`raw.length` deduplicated candidates. -/
theorem dedup_nonempty_bounds (raw : List RawCandidate) (hne : raw ≠ []) :
    (∀ c ∈ deduplicatedPatchCandidates raw, c.source_agents ≠ [])
    ∧ 1 ≤ (deduplicatedPatchCandidates raw).length
    ∧ (deduplicatedPatchCandidates raw).length ≤ raw.length := by
  obtain ⟨_, _, _, hnonempty⟩ := dedupMap_props raw
  have hlen : (deduplicatedPatchCandidates raw).length = (dedupMap raw).length := by
    rw [(dedupSorted_perm raw).length_eq, List.length_map]
  refine ⟨?_, ?_, ?_⟩
  · intro c hc
    have hc' : c ∈ (dedupMap raw).map Prod.snd :=
      (List.Perm.mem_iff (dedupSorted_perm raw)).mp hc
    obtain ⟨e, he, rfl⟩ := List.mem_map.mp hc'
    exact hnonempty e he
  · rw [hlen]
    exact dedupMap_length_pos raw hne
  · rw [hlen]
    exact dedupMap_length_le raw

theorem dedup_nonempty_bounds_witness :
    [mkRawCandidate 1 findingBaja] ≠ []
    ∧ ((∀ c ∈ deduplicatedPatchCandidates [mkRawCandidate 1 findingBaja],
          c.source_agents ≠ [])
       ∧ 1 ≤ (deduplicatedPatchCandidates [mkRawCandidate 1 findingBaja]).length
       ∧ (deduplicatedPatchCandidates [mkRawCandidate 1 findingBaja]).length
          ≤ [mkRawCandidate 1 findingBaja].length) :=
  ⟨by simp, dedup_nonempty_bounds [mkRawCandidate 1 findingBaja] (by simp)⟩

end BuildHandoff
